import Mathlib

/-!
Verification of the bond price calculator (`src/bond_price_calc.cpp`).

The C++ program is shallowly embedded over `ℚ` (the program's `double`
arithmetic is modelled as exact rational arithmetic), the Mersenne-twister
Gaussian sampler is modelled as an explicit stream `eps : ℕ → ℚ` of sampled
perturbations, and exceptions are modelled with `Except String`, carrying the
exact message strings thrown by the C++ code.
-/

/-- Model of `std::lower_bound` over a sorted `std::vector<double>`: index of the first
element that is not less than `t` (equal to the length when every element is
less than `t`).  The C++ call is a binary search whose contract holds on sorted
input; the linear scan below computes the same index on sorted input. -/
def lowerBound (l : List ℚ) (t : ℚ) : ℕ :=
  match l with
  | [] => 0
  | x :: xs => if t ≤ x then 0 else lowerBound xs t + 1

/-- The `YieldCurve` class: two parallel vectors of maturities and rates. -/
structure YieldCurve where
  maturities : List ℚ
  rates : List ℚ
deriving DecidableEq, Repr

/-- The `YieldCurve` constructor: throws `std::invalid_argument` when the two
vectors differ in length, otherwise stores them unchanged. -/
def mkYieldCurve (ms rs : List ℚ) : Except String YieldCurve :=
  if ms.length ≠ rs.length then
    .error "Maturities and rates must have the same size"
  else
    .ok ⟨ms, rs⟩

/-- Embedding of `YieldCurve::interpolate`.  Out-of-bounds vector reads (only possible on an
empty curve, where `rates.front()` is undefined behaviour in C++) are modelled
by `List.getD` with default `0`; `YieldCurve.interpolate?` below tracks those
reads precisely. -/
def YieldCurve.interpolate (c : YieldCurve) (t : ℚ) : ℚ :=
  let idx := lowerBound c.maturities t
  if idx = 0 then c.rates.getD 0 0
  else if idx = c.maturities.length then c.rates.getD (c.rates.length - 1) 0
  else
    let t0 := c.maturities.getD (idx - 1) 0
    let t1 := c.maturities.getD idx 0
    let r0 := c.rates.getD (idx - 1) 0
    let r1 := c.rates.getD idx 0
    r0 + (r1 - r0) * (t - t0) / (t1 - t0)

/-- Variant of `YieldCurve::interpolate` with every vector access made explicit: `none`
exactly when the C++ code would read an element that does not exist
(`rates.front()` / `rates.back()` on an empty vector). -/
def YieldCurve.interpolate? (c : YieldCurve) (t : ℚ) : Option ℚ :=
  let idx := lowerBound c.maturities t
  if idx = 0 then c.rates[0]?
  else if idx = c.maturities.length then c.rates[c.rates.length - 1]?
  else
    match c.maturities[idx - 1]?, c.maturities[idx]?,
          c.rates[idx - 1]?, c.rates[idx]? with
    | some t0, some t1, some r0, some r1 =>
        some (r0 + (r1 - r0) * (t - t0) / (t1 - t0))
    | _, _, _, _ => none

/-- The `BondPriceCalculator` class.  `double` fields are `ℚ`, `int` fields are
`ℤ`; the random generator and distribution are not state here — each sampling
call is fed from an explicit stream argument instead. -/
structure BondPriceCalculator where
  face_value : ℚ
  coupon_rate : ℚ
  years_to_maturity : ℤ
  coupons_per_year : ℤ
  yield_curve : YieldCurve
  num_simulations : ℤ
  is_zero_coupon : Bool
deriving DecidableEq, Repr

/-- The `BondPriceCalculator` constructor: `validateInputs()` (its five checks
in order, throwing the C++ message of the first failing check), then the
derived `is_zero_coupon` flag. -/
def BondPriceCalculator.mk? (fv cr : ℚ) (ytm cpy : ℤ) (yc : YieldCurve)
    (sims : ℤ) : Except String BondPriceCalculator :=
  if fv ≤ 0 then .error "Face value must be positive"
  else if cr < 0 then .error "Coupon rate cannot be negative"
  else if ytm ≤ 0 then .error "Years to maturity must be positive"
  else if cpy ≤ 0 then .error "Coupons per year must be positive"
  else if sims ≤ 0 then .error "Number of simulations must be positive"
  else .ok ⟨fv, cr, ytm, cpy, yc, sims, decide (cr = 0 ∧ cpy = 1)⟩

/-- The accumulation loop of `calculatePrice`: after `n` iterations the
accumulator holds the discounted coupons for periods `1..n` (iteration `i` of
the C++ loop adds `coupon_payment / (1 + interpolate(i/cpy)/cpy)^i`). -/
def couponLoop (curve : YieldCurve) (cp : ℚ) (cpy : ℤ) : ℕ → ℚ
  | 0 => 0
  | n + 1 =>
      couponLoop curve cp cpy n +
        cp / (1 + curve.interpolate (((n : ℚ) + 1) / (cpy : ℚ)) / (cpy : ℚ)) ^ (n + 1)

/-- Embedding of `BondPriceCalculator::calculatePrice(curve)`. -/
def BondPriceCalculator.calculatePrice (b : BondPriceCalculator)
    (curve : YieldCurve) : ℚ :=
  if b.is_zero_coupon then
    b.face_value /
      (1 + curve.interpolate (b.years_to_maturity : ℚ)) ^ b.years_to_maturity.toNat
  else
    let coupon_payment := b.face_value * b.coupon_rate / (b.coupons_per_year : ℚ)
    let N := (b.years_to_maturity * b.coupons_per_year).toNat
    couponLoop curve coupon_payment b.coupons_per_year N +
      b.face_value /
        (1 + curve.interpolate (b.years_to_maturity : ℚ) / (b.coupons_per_year : ℚ)) ^ N

/-- The accumulation loop of `calculateStaticPrice` (the C++ code duplicates
the loop body of `calculatePrice`, reading the member `yield_curve`). -/
def staticCouponLoop (b : BondPriceCalculator) : ℕ → ℚ
  | 0 => 0
  | n + 1 =>
      staticCouponLoop b n +
        (b.face_value * b.coupon_rate / (b.coupons_per_year : ℚ)) /
          (1 + b.yield_curve.interpolate (((n : ℚ) + 1) / (b.coupons_per_year : ℚ)) /
            (b.coupons_per_year : ℚ)) ^ (n + 1)

/-- Embedding of `BondPriceCalculator::calculateStaticPrice()`, transcribed from its own
(duplicated) body, not defined through `calculatePrice`. -/
def BondPriceCalculator.calculateStaticPrice (b : BondPriceCalculator) : ℚ :=
  if b.is_zero_coupon then
    b.face_value /
      (1 + b.yield_curve.interpolate (b.years_to_maturity : ℚ)) ^ b.years_to_maturity.toNat
  else
    let N := (b.years_to_maturity * b.coupons_per_year).toNat
    staticCouponLoop b N +
      b.face_value /
        (1 + b.yield_curve.interpolate (b.years_to_maturity : ℚ) /
          (b.coupons_per_year : ℚ)) ^ N

/-- Embedding of `BondPriceCalculator::shiftYieldCurve()`: a fresh curve with maturities
`1..years_to_maturity`; the `i`-th rate (for maturity `i+1`) is the base
curve's interpolated rate plus the sampled perturbation `eps i`, floored at 0
by `std::max(0.0, shifted_rate)`. -/
def BondPriceCalculator.shiftYieldCurve (b : BondPriceCalculator)
    (eps : ℕ → ℚ) : YieldCurve :=
  { maturities := (List.range b.years_to_maturity.toNat).map (fun i => (i : ℚ) + 1),
    rates := (List.range b.years_to_maturity.toNat).map
      (fun (i : ℕ) => max 0 (b.yield_curve.interpolate ((i : ℚ) + 1) + eps i)) }

/-- The trial loop of `calculateMonteCarlo`: `k` trials remaining, the shared
generator having already consumed `off` samples.  Each trial draws
`years_to_maturity` fresh samples (one per perturbed maturity) and prices the
perturbed curve. -/
def mcLoop (b : BondPriceCalculator) (eps : ℕ → ℚ) : ℕ → ℕ → List ℚ
  | 0, _ => []
  | k + 1, off =>
      b.calculatePrice (b.shiftYieldCurve (fun j => eps (off + j))) ::
        mcLoop b eps k (off + b.years_to_maturity.toNat)

/-- Embedding of `BondPriceCalculator::calculateMonteCarlo`, up to the final `std::sqrt`:
the C++ function returns `{mean, sqrt(variance)}`; the model returns
`(mean, variance)`, i.e. the exact radicand of the reported standard
deviation, since the square root of a rational is irrational in general.
The two accumulations mirror the two `std::accumulate` calls. -/
def BondPriceCalculator.calculateMonteCarlo (b : BondPriceCalculator)
    (eps : ℕ → ℚ) : ℚ × ℚ :=
  let prices := mcLoop b eps b.num_simulations.toNat 0
  let mean := prices.foldl (· + ·) 0 / (b.num_simulations : ℚ)
  let variance :=
    prices.foldl (fun acc price => acc + (price - mean) ^ 2) 0 /
      ((b.num_simulations : ℚ) - 1)
  (mean, variance)

/-- The demonstration curve hard-coded in `main`: maturities 1, 2, 3, 5, 10,
30 with rates 0.01, 0.015, 0.02, 0.025, 0.03, 0.035. -/
def demoCurve : YieldCurve :=
  ⟨[1, 2, 3, 5, 10, 30], [1/100, 3/200, 1/50, 1/40, 3/100, 7/200]⟩

/-- A two-point flat curve at rate 0.03, used as a concrete input. -/
def flatCurve : YieldCurve := ⟨[1, 2], [3/100, 3/100]⟩

/-- The engine built by `BondPriceCalculator.mk? 1000 0 5 1 demoCurve 10`
(a zero-coupon configuration). -/
def bZero : BondPriceCalculator := ⟨1000, 0, 5, 1, demoCurve, 10, true⟩

/-- The engine built by
`BondPriceCalculator.mk? 1000 (1/20) 2 2 demoCurve 3` (a semiannual 5%
coupon configuration). -/
def bCoupon : BondPriceCalculator := ⟨1000, 1/20, 2, 2, demoCurve, 3, false⟩

theorem lowerBound_le_length (l : List ℚ) (t : ℚ) : lowerBound l t ≤ l.length := by
  induction l with
  | nil => simp [lowerBound]
  | cons x xs ih =>
    simp only [lowerBound, List.length_cons]
    split
    · omega
    · omega

theorem le_getD_lowerBound (l : List ℚ) (t : ℚ) (h : lowerBound l t < l.length) :
    t ≤ l.getD (lowerBound l t) 0 := by
  induction l with
  | nil => simp [lowerBound] at h
  | cons x xs ih =>
    simp only [lowerBound] at h ⊢
    split
    · simpa using (by assumption : t ≤ x)
    · simp only [List.getD_cons_succ]
      exact ih (by simpa [lowerBound, *] using h)

theorem getD_lt_of_lt_lowerBound (l : List ℚ) (t : ℚ) (i : ℕ)
    (h : i < lowerBound l t) : l.getD i 0 < t := by
  induction l generalizing i with
  | nil => simp [lowerBound] at h
  | cons x xs ih =>
    simp only [lowerBound] at h
    split at h
    · omega
    · cases i with
      | zero =>
        simp only [List.getD_cons_zero]
        exact lt_of_not_le (by assumption)
      | succ j =>
        simp only [List.getD_cons_succ]
        exact ih j (by omega)

theorem lowerBound_eq_length_of_forall_lt (l : List ℚ) (t : ℚ)
    (h : ∀ x ∈ l, x < t) : lowerBound l t = l.length := by
  induction l with
  | nil => simp [lowerBound]
  | cons x xs ih =>
    have hx : x < t := h x (List.mem_cons_self x xs)
    simp only [lowerBound, List.length_cons]
    rw [if_neg (not_le.mpr hx)]
    rw [ih (fun y hy => h y (List.mem_cons_of_mem x hy))]

theorem mem_le_getD_last (l : List ℚ) (hs : l.Sorted (· < ·)) (y : ℚ)
    (hy : y ∈ l) : y ≤ l.getD (l.length - 1) 0 := by
  have hlen : 0 < l.length := List.length_pos.mpr (List.ne_nil_of_mem hy)
  have hlast : l.length - 1 < l.length := by omega
  obtain ⟨i, rfl⟩ := List.mem_iff_get.mp hy
  rw [List.getD_eq_get _ _ hlast]
  have hle : (i : ℕ) ≤ l.length - 1 := by omega
  rcases eq_or_lt_of_le hle with h | h
  · exact le_of_eq (congrArg l.get (Fin.ext h))
  · exact le_of_lt (hs.rel_get_of_lt (by simpa [Fin.lt_def] using h))

theorem getD_nonneg (l : List ℚ) (hr : ∀ x ∈ l, 0 ≤ x) (i : ℕ) :
    0 ≤ l.getD i 0 := by
  rcases lt_or_le i l.length with h | h
  · rw [List.getD_eq_getElem _ _ h]
    exact hr _ (List.getElem_mem h)
  · rw [List.getD_eq_default _ _ h]

theorem interpolate_nonneg (c : YieldCurve) (hr : ∀ x ∈ c.rates, 0 ≤ x)
    (t : ℚ) : 0 ≤ c.interpolate t := by
  unfold YieldCurve.interpolate
  dsimp only
  split
  · exact getD_nonneg _ hr _
  · split
    · exact getD_nonneg _ hr _
    · have hidxlt : lowerBound c.maturities t < c.maturities.length :=
        lt_of_le_of_ne (lowerBound_le_length _ _) (by assumption)
      have hidx0 : 0 < lowerBound c.maturities t := Nat.pos_of_ne_zero (by assumption)
      have ht1 : t ≤ c.maturities.getD (lowerBound c.maturities t) 0 :=
        le_getD_lowerBound _ _ hidxlt
      have ht0 : c.maturities.getD (lowerBound c.maturities t - 1) 0 < t :=
        getD_lt_of_lt_lowerBound _ _ _ (by omega)
      have hr0 : 0 ≤ c.rates.getD (lowerBound c.maturities t - 1) 0 :=
        getD_nonneg _ hr _
      have hr1 : 0 ≤ c.rates.getD (lowerBound c.maturities t) 0 :=
        getD_nonneg _ hr _
      set t0 := c.maturities.getD (lowerBound c.maturities t - 1) 0 with h0
      set t1 := c.maturities.getD (lowerBound c.maturities t) 0 with h1
      set r0 := c.rates.getD (lowerBound c.maturities t - 1) 0 with h2
      set r1 := c.rates.getD (lowerBound c.maturities t) 0 with h3
      have hd : 0 < t1 - t0 := by linarith
      have key : r0 + (r1 - r0) * (t - t0) / (t1 - t0) =
          (r0 * (t1 - t) + r1 * (t - t0)) / (t1 - t0) := by
        field_simp
        ring
      rw [key]
      apply div_nonneg _ (le_of_lt hd)
      have e1 : 0 ≤ r0 * (t1 - t) := mul_nonneg hr0 (by linarith)
      have e2 : 0 ≤ r1 * (t - t0) := mul_nonneg hr1 (by linarith)
      linarith

theorem couponLoop_eq_sum (curve : YieldCurve) (cp : ℚ) (cpy : ℤ) (n : ℕ) :
    couponLoop curve cp cpy n =
      ∑ i in Finset.Icc 1 n,
        cp / (1 + curve.interpolate ((i : ℚ) / (cpy : ℚ)) / (cpy : ℚ)) ^ i := by
  induction n with
  | zero => simp [couponLoop]
  | succ n ih =>
    rw [couponLoop, ih, Finset.sum_Icc_succ_top (by omega)]
    push_cast
    ring

theorem staticCouponLoop_eq (b : BondPriceCalculator) (n : ℕ) :
    staticCouponLoop b n =
      couponLoop b.yield_curve
        (b.face_value * b.coupon_rate / (b.coupons_per_year : ℚ))
        b.coupons_per_year n := by
  induction n with
  | zero => rfl
  | succ n ih => rw [staticCouponLoop, couponLoop, ih]

theorem mk?_eq_ok (fv cr : ℚ) (ytm cpy : ℤ) (yc : YieldCurve) (sims : ℤ)
    (b : BondPriceCalculator)
    (h : BondPriceCalculator.mk? fv cr ytm cpy yc sims = .ok b) :
    b = ⟨fv, cr, ytm, cpy, yc, sims, decide (cr = 0 ∧ cpy = 1)⟩ ∧
      0 < fv ∧ 0 ≤ cr ∧ 0 < ytm ∧ 0 < cpy ∧ 0 < sims := by
  unfold BondPriceCalculator.mk? at h
  split_ifs at h with h1 h2 h3 h4 h5
  injection h with h
  exact ⟨h.symm, lt_of_not_le h1, not_lt.mp h2, lt_of_not_le h3,
    lt_of_not_le h4, lt_of_not_le h5⟩

theorem lowerBound_eq_zero (l : List ℚ) (t : ℚ) (hne : l ≠ [])
    (h : t ≤ l.getD 0 0) : lowerBound l t = 0 := by
  cases l with
  | nil => exact absurd rfl hne
  | cons x xs =>
    simp only [List.getD_cons_zero] at h
    simp [lowerBound, h]

theorem lowerBound_pos (l : List ℚ) (t : ℚ) (hne : l ≠ [])
    (h : l.getD 0 0 < t) : 0 < lowerBound l t := by
  cases l with
  | nil => exact absurd rfl hne
  | cons x xs =>
    simp only [List.getD_cons_zero] at h
    simp [lowerBound, not_le.mpr h]

/-- C2: on a non-empty yield curve with strictly increasing maturities,
`YieldCurve::interpolate` returns the first rate when `t` is at or below the
first maturity, the last rate when `t` exceeds the last maturity, and
otherwise — with `(t0, r0)` the point immediately before the lower-bound index
and `(t1, r1)` the point at that index — the linear interpolation
`r0 + (r1 - r0) * (t - t0) / (t1 - t0)`; it is a pure function of the curve
and `t`. -/
theorem interpolate_spec (c : YieldCurve) (t : ℚ)
    (hne : c.maturities ≠ [])
    (hlen : c.maturities.length = c.rates.length)
    (hs : c.maturities.Sorted (· < ·)) :
    (t ≤ c.maturities.getD 0 0 → c.interpolate t = c.rates.getD 0 0) ∧
    (c.maturities.getD (c.maturities.length - 1) 0 < t →
      c.interpolate t = c.rates.getD (c.rates.length - 1) 0) ∧
    (c.maturities.getD 0 0 < t →
      t ≤ c.maturities.getD (c.maturities.length - 1) 0 →
      0 < lowerBound c.maturities t ∧
      lowerBound c.maturities t < c.maturities.length ∧
      c.interpolate t =
        c.rates.getD (lowerBound c.maturities t - 1) 0 +
          (c.rates.getD (lowerBound c.maturities t) 0 -
            c.rates.getD (lowerBound c.maturities t - 1) 0) *
            (t - c.maturities.getD (lowerBound c.maturities t - 1) 0) /
            (c.maturities.getD (lowerBound c.maturities t) 0 -
              c.maturities.getD (lowerBound c.maturities t - 1) 0)) := by
  have hmlen : 0 < c.maturities.length := List.length_pos.mpr hne
  refine ⟨?_, ?_, ?_⟩
  · intro h
    have h0 : lowerBound c.maturities t = 0 := lowerBound_eq_zero _ _ hne h
    unfold YieldCurve.interpolate
    dsimp only
    rw [if_pos h0]
  · intro h
    have hall : ∀ y ∈ c.maturities, y < t := fun y hy =>
      lt_of_le_of_lt (mem_le_getD_last _ hs y hy) h
    have hL : lowerBound c.maturities t = c.maturities.length :=
      lowerBound_eq_length_of_forall_lt _ _ hall
    unfold YieldCurve.interpolate
    dsimp only
    rw [hL, if_neg (by omega), if_pos rfl]
  · intro hlo hhi
    have h1 : 0 < lowerBound c.maturities t := lowerBound_pos _ _ hne hlo
    have h2 : lowerBound c.maturities t < c.maturities.length := by
      rcases lt_or_eq_of_le (lowerBound_le_length c.maturities t) with h | h
      · exact h
      · exfalso
        have hlt := getD_lt_of_lt_lowerBound c.maturities t
          (c.maturities.length - 1) (by omega)
        linarith
    refine ⟨h1, h2, ?_⟩
    unfold YieldCurve.interpolate
    dsimp only
    rw [if_neg (by omega), if_neg (by omega)]

/-- C2 witness: the demonstration curve is non-empty, has equally long
maturity and rate vectors, strictly increasing maturities, and interpolation
at `t = 1/2` (at or below the first maturity) returns the first rate. -/
theorem interpolate_spec_witness :
    demoCurve.maturities ≠ [] ∧
    demoCurve.maturities.length = demoCurve.rates.length ∧
    demoCurve.maturities.Sorted (· < ·) ∧
    ((1/2 : ℚ) ≤ demoCurve.maturities.getD 0 0 ∧
      demoCurve.interpolate (1/2) = demoCurve.rates.getD 0 0) :=
  ⟨by decide, by decide, by norm_num [demoCurve, List.sorted_cons],
    by norm_num [demoCurve],
    (interpolate_spec demoCurve (1/2) (by decide) (by decide)
        (by norm_num [demoCurve, List.sorted_cons])).1
      (by norm_num [demoCurve])⟩

/-- C7: on a non-empty strictly increasing curve all of whose rates equal a
single value `r`, `interpolate(t) = r` for every `t`, including `t` outside
the curve's domain on either side. -/
theorem interpolate_flat (c : YieldCurve) (r : ℚ)
    (hne : c.maturities ≠ [])
    (hlen : c.maturities.length = c.rates.length)
    (hs : c.maturities.Sorted (· < ·))
    (hr : ∀ x ∈ c.rates, x = r) (t : ℚ) :
    c.interpolate t = r := by
  have hmlen : 0 < c.maturities.length := List.length_pos.mpr hne
  have hrlen : 0 < c.rates.length := hlen ▸ hmlen
  have hrD : ∀ i, i < c.rates.length → c.rates.getD i 0 = r := by
    intro i hi
    rw [List.getD_eq_getElem _ _ hi]
    exact hr _ (List.getElem_mem hi)
  unfold YieldCurve.interpolate
  dsimp only
  split
  · exact hrD 0 hrlen
  · split
    · exact hrD _ (by omega)
    · have h2 : lowerBound c.maturities t < c.maturities.length :=
        lt_of_le_of_ne (lowerBound_le_length _ _) (by assumption)
      rw [hrD (lowerBound c.maturities t - 1) (by omega),
        hrD (lowerBound c.maturities t) (by omega)]
      simp

/-- C7 witness: a two-point curve flat at rate 0.03 interpolates to 0.03 at a
point beyond its last maturity. -/
theorem interpolate_flat_witness :
    flatCurve.maturities ≠ [] ∧
    flatCurve.maturities.length = flatCurve.rates.length ∧
    flatCurve.maturities.Sorted (· < ·) ∧
    (∀ x ∈ flatCurve.rates, x = 3/100) ∧
    flatCurve.interpolate 7 = 3/100 :=
  ⟨by decide, by decide, by norm_num [flatCurve, List.sorted_cons],
    by norm_num [flatCurve],
    interpolate_flat flatCurve (3/100) (by decide) (by decide)
      (by norm_num [flatCurve, List.sorted_cons]) (by norm_num [flatCurve]) 7⟩

/-- C3: for a validly constructed engine, `is_zero_coupon` holds iff
`coupon_rate == 0` and `coupons_per_year == 1`, and on that branch
`calculatePrice(curve)` is `face_value / (1 + curve.interpolate(ytm))^ytm`
with both the rate lookup and the exponent using the annual period. -/
theorem calculatePrice_zero_coupon_spec (fv cr : ℚ) (ytm cpy : ℤ)
    (yc : YieldCurve) (sims : ℤ) (b : BondPriceCalculator)
    (hmk : BondPriceCalculator.mk? fv cr ytm cpy yc sims = .ok b) :
    (b.is_zero_coupon = true ↔ (cr = 0 ∧ cpy = 1)) ∧
    (b.is_zero_coupon = true → ∀ curve : YieldCurve,
      b.calculatePrice curve =
        fv / (1 + curve.interpolate (ytm : ℚ)) ^ ytm.toNat) := by
  obtain ⟨hb, -, -, -, -, -⟩ := mk?_eq_ok fv cr ytm cpy yc sims b hmk
  subst hb
  constructor
  · exact decide_eq_true_iff
  · intro hz curve
    have hz' : decide (cr = 0 ∧ cpy = 1) = true := hz
    simp [BondPriceCalculator.calculatePrice, hz']

/-- C3 witness: the zero-coupon engine `bZero` is produced by the constructor,
its flag is set, and its price against the demonstration curve is the single
discounted redemption payment. -/
theorem calculatePrice_zero_coupon_spec_witness :
    BondPriceCalculator.mk? 1000 0 5 1 demoCurve 10 = .ok bZero ∧
    bZero.is_zero_coupon = true ∧
    bZero.calculatePrice demoCurve =
      1000 / (1 + demoCurve.interpolate ((5 : ℤ) : ℚ)) ^ (5 : ℤ).toNat :=
  ⟨by rfl, by rfl,
    (calculatePrice_zero_coupon_spec 1000 0 5 1 demoCurve 10 bZero (by rfl)).2
      (by rfl) demoCurve⟩

/-- C1: for a validly constructed engine, `is_zero_coupon` is false iff
`coupon_rate > 0` or `coupons_per_year != 1`, and on that branch, for every
curve, `calculatePrice(curve)` is the sum over periods `i = 1..N`
(`N = years_to_maturity * coupons_per_year`) of
`coupon_payment / (1 + interpolate(i/cpy)/cpy)^i` with
`coupon_payment = face_value * coupon_rate / cpy`, plus
`face_value / (1 + interpolate(years_to_maturity)/cpy)^N`, the final discount
rate being a fresh interpolation at the full maturity. -/
theorem calculatePrice_coupon_spec (fv cr : ℚ) (ytm cpy : ℤ)
    (yc : YieldCurve) (sims : ℤ) (b : BondPriceCalculator)
    (hmk : BondPriceCalculator.mk? fv cr ytm cpy yc sims = .ok b) :
    (b.is_zero_coupon = false ↔ (0 < cr ∨ cpy ≠ 1)) ∧
    (b.is_zero_coupon = false → ∀ curve : YieldCurve,
      b.calculatePrice curve =
        (∑ i in Finset.Icc 1 ((ytm * cpy).toNat),
          (fv * cr / (cpy : ℚ)) /
            (1 + curve.interpolate ((i : ℚ) / (cpy : ℚ)) / (cpy : ℚ)) ^ i) +
        fv / (1 + curve.interpolate (ytm : ℚ) / (cpy : ℚ)) ^
          ((ytm * cpy).toNat)) := by
  obtain ⟨hb, hfv, hcr, hytm, hcpy, hsims⟩ := mk?_eq_ok fv cr ytm cpy yc sims b hmk
  subst hb
  constructor
  · rw [decide_eq_false_iff_not, not_and_or]
    constructor
    · rintro (h | h)
      · exact Or.inl (lt_of_le_of_ne hcr (Ne.symm h))
      · exact Or.inr h
    · rintro (h | h)
      · exact Or.inl (ne_of_gt h)
      · exact Or.inr h
  · intro hz curve
    have hz' : decide (cr = 0 ∧ cpy = 1) = false := hz
    simp only [BondPriceCalculator.calculatePrice, hz', Bool.false_eq_true,
      if_false]
    rw [couponLoop_eq_sum]

/-- C1 witness: the semiannual coupon engine `bCoupon` is produced by the
constructor, its zero-coupon flag is clear, and its price against the
demonstration curve equals the four discounted coupons plus the discounted
face value. -/
theorem calculatePrice_coupon_spec_witness :
    BondPriceCalculator.mk? 1000 (1/20) 2 2 demoCurve 3 = .ok bCoupon ∧
    bCoupon.is_zero_coupon = false ∧
    bCoupon.calculatePrice demoCurve =
      (∑ i in Finset.Icc 1 (((2 : ℤ) * 2).toNat),
        ((1000 : ℚ) * (1/20) / ((2 : ℤ) : ℚ)) /
          (1 + demoCurve.interpolate ((i : ℚ) / ((2 : ℤ) : ℚ)) /
            ((2 : ℤ) : ℚ)) ^ i) +
      1000 / (1 + demoCurve.interpolate ((2 : ℤ) : ℚ) / ((2 : ℤ) : ℚ)) ^
        (((2 : ℤ) * 2).toNat) :=
  ⟨by norm_num [BondPriceCalculator.mk?, bCoupon], by rfl,
    (calculatePrice_coupon_spec 1000 (1/20) 2 2 demoCurve 3 bCoupon
        (by norm_num [BondPriceCalculator.mk?, bCoupon])).2
      (by rfl) demoCurve⟩

/-- C4: for a validly constructed engine, `calculateStaticPrice()` returns
exactly the same value as `calculatePrice(base_curve)`. -/
theorem staticPrice_eq_price (fv cr : ℚ) (ytm cpy : ℤ) (yc : YieldCurve)
    (sims : ℤ) (b : BondPriceCalculator)
    (hmk : BondPriceCalculator.mk? fv cr ytm cpy yc sims = .ok b) :
    b.calculateStaticPrice = b.calculatePrice b.yield_curve := by
  by_cases hz : b.is_zero_coupon
  · simp only [BondPriceCalculator.calculateStaticPrice,
      BondPriceCalculator.calculatePrice, hz, if_true]
  · simp only [BondPriceCalculator.calculateStaticPrice,
      BondPriceCalculator.calculatePrice, hz, if_false]
    rw [staticCouponLoop_eq]

/-- C4 witness: the static price of `bCoupon` equals its parameterized price
applied to its own base curve. -/
theorem staticPrice_eq_price_witness :
    BondPriceCalculator.mk? 1000 (1/20) 2 2 demoCurve 3 = .ok bCoupon ∧
    bCoupon.calculateStaticPrice = bCoupon.calculatePrice bCoupon.yield_curve :=
  ⟨by norm_num [BondPriceCalculator.mk?, bCoupon],
    staticPrice_eq_price 1000 (1/20) 2 2 demoCurve 3 bCoupon
      (by norm_num [BondPriceCalculator.mk?, bCoupon])⟩

/-- C6: for a validly constructed engine and any sampled perturbations `eps`
(however negative), `shiftYieldCurve` returns a curve whose maturities are the
integers `1..years_to_maturity`, whose rates are the base curve's interpolated
rates plus the samples floored at 0 — hence all non-negative — and
consequently every interpolated rate of the perturbed curve is non-negative;
the base curve is left unchanged. -/
theorem shiftYieldCurve_spec (fv cr : ℚ) (ytm cpy : ℤ) (yc : YieldCurve)
    (sims : ℤ) (b : BondPriceCalculator)
    (hmk : BondPriceCalculator.mk? fv cr ytm cpy yc sims = .ok b)
    (eps : ℕ → ℚ) :
    (b.shiftYieldCurve eps).maturities =
      (List.range ytm.toNat).map (fun i => (i : ℚ) + 1) ∧
    (b.shiftYieldCurve eps).rates =
      (List.range ytm.toNat).map
        (fun (i : ℕ) => max 0 (yc.interpolate ((i : ℚ) + 1) + eps i)) ∧
    (∀ x ∈ (b.shiftYieldCurve eps).rates, 0 ≤ x) ∧
    (∀ t, 0 ≤ (b.shiftYieldCurve eps).interpolate t) ∧
    b.yield_curve = yc := by
  obtain ⟨hb, -, -, -, -, -⟩ := mk?_eq_ok fv cr ytm cpy yc sims b hmk
  subst hb
  have hrates : ∀ x ∈ (BondPriceCalculator.shiftYieldCurve
      ⟨fv, cr, ytm, cpy, yc, sims, decide (cr = 0 ∧ cpy = 1)⟩ eps).rates,
      0 ≤ x := by
    intro x hx
    simp only [BondPriceCalculator.shiftYieldCurve, List.mem_map] at hx
    obtain ⟨i, -, rfl⟩ := hx
    exact le_max_left 0 _
  exact ⟨rfl, rfl, hrates,
    fun t => interpolate_nonneg _ hrates t, rfl⟩

/-- C6 witness: perturbing the zero-coupon engine's curve with the constant
sample −1 still yields a non-negative interpolated rate at `t = 7/2`. -/
theorem shiftYieldCurve_spec_witness :
    BondPriceCalculator.mk? 1000 0 5 1 demoCurve 10 = .ok bZero ∧
    0 ≤ (bZero.shiftYieldCurve (fun _ => -1)).interpolate (7/2) :=
  ⟨by rfl,
    (shiftYieldCurve_spec 1000 0 5 1 demoCurve 10 bZero (by rfl)
        (fun _ => -1)).2.2.2.1 (7/2)⟩

theorem mcLoop_length (b : BondPriceCalculator) (eps : ℕ → ℚ) (k off : ℕ) :
    (mcLoop b eps k off).length = k := by
  induction k generalizing off with
  | zero => rfl
  | succ k ih => simp [mcLoop, ih]

theorem mcLoop_getD (b : BondPriceCalculator) (eps : ℕ → ℚ) (k off i : ℕ)
    (h : i < k) :
    (mcLoop b eps k off).getD i 0 =
      b.calculatePrice (b.shiftYieldCurve
        (fun j => eps (off + i * b.years_to_maturity.toNat + j))) := by
  induction k generalizing off i with
  | zero => omega
  | succ k ih =>
    cases i with
    | zero => simp [mcLoop]
    | succ m =>
      simp only [mcLoop, List.getD_cons_succ]
      rw [ih (off + b.years_to_maturity.toNat) m (by omega)]
      have harg :
          (fun j => eps (off + b.years_to_maturity.toNat +
            m * b.years_to_maturity.toNat + j)) =
          (fun j => eps (off + (m + 1) * b.years_to_maturity.toNat + j)) := by
        funext j
        congr 1
        ring
      rw [harg]

theorem foldl_add_eq_sum (l : List ℚ) (a : ℚ) :
    l.foldl (· + ·) a = a + l.sum := by
  induction l generalizing a with
  | nil => simp
  | cons x xs ih =>
    rw [List.foldl_cons, ih, List.sum_cons]
    ring

theorem foldl_sq_eq_sum (l : List ℚ) (m a : ℚ) :
    l.foldl (fun acc p => acc + (p - m) ^ 2) a =
      a + (l.map (fun p => (p - m) ^ 2)).sum := by
  induction l generalizing a with
  | nil => simp
  | cons x xs ih =>
    rw [List.foldl_cons, ih, List.map_cons, List.sum_cons]
    ring

/-- C5: for a validly constructed engine (`num_simulations = sims > 0`),
`calculateMonteCarlo` runs exactly `sims` trials, each trial pricing a freshly
perturbed curve (trial `i` consuming the next `years_to_maturity` samples of
the shared generator stream); over the collected prices it returns the mean
`(sum of prices) / sims` and, as the radicand of the reported standard
deviation, `((sum of (p - mean)^2) / (sims - 1))` — Bessel's correction.  When
`sims = 1` the standard-deviation denominator `sims - 1` is `0`, so the C++
result is undefined (division by zero; `ℚ` formalizes the quotient as 0). -/
theorem calculateMonteCarlo_spec (fv cr : ℚ) (ytm cpy : ℤ) (yc : YieldCurve)
    (sims : ℤ) (b : BondPriceCalculator)
    (hmk : BondPriceCalculator.mk? fv cr ytm cpy yc sims = .ok b)
    (eps : ℕ → ℚ) :
    0 < sims ∧
    (mcLoop b eps sims.toNat 0).length = sims.toNat ∧
    (∀ i, i < sims.toNat →
      (mcLoop b eps sims.toNat 0).getD i 0 =
        b.calculatePrice (b.shiftYieldCurve
          (fun j => eps (i * ytm.toNat + j)))) ∧
    b.calculateMonteCarlo eps =
      ((mcLoop b eps sims.toNat 0).sum / (sims : ℚ),
        ((mcLoop b eps sims.toNat 0).map
          (fun p => (p - (mcLoop b eps sims.toNat 0).sum / (sims : ℚ)) ^ 2)).sum /
          ((sims : ℚ) - 1)) ∧
    (sims = 1 → (sims : ℚ) - 1 = 0) := by
  obtain ⟨hb, -, -, -, -, hsims⟩ := mk?_eq_ok fv cr ytm cpy yc sims b hmk
  subst hb
  refine ⟨hsims, mcLoop_length _ _ _ _, ?_, ?_, ?_⟩
  · intro i hi
    rw [mcLoop_getD _ _ _ _ _ hi]
    have harg : (fun j => eps (0 + i * ytm.toNat + j)) =
        (fun j => eps (i * ytm.toNat + j)) := by
      funext j
      congr 1
      ring
    rw [harg]
  · simp only [BondPriceCalculator.calculateMonteCarlo]
    rw [foldl_add_eq_sum, foldl_sq_eq_sum]
    simp
  · intro h
    subst h
    norm_num

/-- C5 witness: the coupon engine (three simulations) runs exactly three
trials under the zero perturbation stream. -/
theorem calculateMonteCarlo_spec_witness :
    BondPriceCalculator.mk? 1000 (1/20) 2 2 demoCurve 3 = .ok bCoupon ∧
    (mcLoop bCoupon (fun _ => 0) (3 : ℤ).toNat 0).length = (3 : ℤ).toNat :=
  ⟨by norm_num [BondPriceCalculator.mk?, bCoupon],
    (calculateMonteCarlo_spec 1000 (1/20) 2 2 demoCurve 3 bCoupon
        (by norm_num [BondPriceCalculator.mk?, bCoupon])
        (fun _ => 0)).2.1⟩

/-- C8: engine construction succeeds exactly when all five validation rules
hold, the rules are checked in order — `face_value > 0`, `coupon_rate >= 0`,
`years_to_maturity > 0`, `coupons_per_year > 0`, `num_simulations > 0` — with
the first failing rule determining the error message, and on success the
stored state satisfies all five conditions. -/
theorem mk?_spec (fv cr : ℚ) (ytm cpy : ℤ) (yc : YieldCurve) (sims : ℤ) :
    ((∃ b, BondPriceCalculator.mk? fv cr ytm cpy yc sims = .ok b) ↔
      (0 < fv ∧ 0 ≤ cr ∧ 0 < ytm ∧ 0 < cpy ∧ 0 < sims)) ∧
    (fv ≤ 0 → BondPriceCalculator.mk? fv cr ytm cpy yc sims =
      .error "Face value must be positive") ∧
    (0 < fv → cr < 0 → BondPriceCalculator.mk? fv cr ytm cpy yc sims =
      .error "Coupon rate cannot be negative") ∧
    (0 < fv → 0 ≤ cr → ytm ≤ 0 →
      BondPriceCalculator.mk? fv cr ytm cpy yc sims =
        .error "Years to maturity must be positive") ∧
    (0 < fv → 0 ≤ cr → 0 < ytm → cpy ≤ 0 →
      BondPriceCalculator.mk? fv cr ytm cpy yc sims =
        .error "Coupons per year must be positive") ∧
    (0 < fv → 0 ≤ cr → 0 < ytm → 0 < cpy → sims ≤ 0 →
      BondPriceCalculator.mk? fv cr ytm cpy yc sims =
        .error "Number of simulations must be positive") ∧
    (∀ b, BondPriceCalculator.mk? fv cr ytm cpy yc sims = .ok b →
      b.face_value = fv ∧ b.coupon_rate = cr ∧ b.years_to_maturity = ytm ∧
      b.coupons_per_year = cpy ∧ b.yield_curve = yc ∧
      b.num_simulations = sims ∧
      0 < b.face_value ∧ 0 ≤ b.coupon_rate ∧ 0 < b.years_to_maturity ∧
      0 < b.coupons_per_year ∧ 0 < b.num_simulations) := by
  refine ⟨⟨?_, ?_⟩, ?_, ?_, ?_, ?_, ?_, ?_⟩
  · rintro ⟨b, hb⟩
    obtain ⟨-, h⟩ := mk?_eq_ok fv cr ytm cpy yc sims b hb
    exact h
  · rintro ⟨h1, h2, h3, h4, h5⟩
    refine ⟨⟨fv, cr, ytm, cpy, yc, sims, decide (cr = 0 ∧ cpy = 1)⟩, ?_⟩
    unfold BondPriceCalculator.mk?
    rw [if_neg (not_le.mpr h1), if_neg (not_lt.mpr h2),
      if_neg (not_le.mpr h3), if_neg (not_le.mpr h4), if_neg (not_le.mpr h5)]
  · intro h1
    unfold BondPriceCalculator.mk?
    rw [if_pos h1]
  · intro h1 h2
    unfold BondPriceCalculator.mk?
    rw [if_neg (not_le.mpr h1), if_pos h2]
  · intro h1 h2 h3
    unfold BondPriceCalculator.mk?
    rw [if_neg (not_le.mpr h1), if_neg (not_lt.mpr h2), if_pos h3]
  · intro h1 h2 h3 h4
    unfold BondPriceCalculator.mk?
    rw [if_neg (not_le.mpr h1), if_neg (not_lt.mpr h2),
      if_neg (not_le.mpr h3), if_pos h4]
  · intro h1 h2 h3 h4 h5
    unfold BondPriceCalculator.mk?
    rw [if_neg (not_le.mpr h1), if_neg (not_lt.mpr h2),
      if_neg (not_le.mpr h3), if_neg (not_le.mpr h4), if_pos h5]
  · intro b hb
    obtain ⟨hb', h1, h2, h3, h4, h5⟩ := mk?_eq_ok fv cr ytm cpy yc sims b hb
    subst hb'
    exact ⟨rfl, rfl, rfl, rfl, rfl, rfl, h1, h2, h3, h4, h5⟩

/-- C8 witness: a negative face value is rejected with the first rule's
error and no engine is produced. -/
theorem mk?_spec_witness :
    ((-100 : ℚ) ≤ 0) ∧
    BondPriceCalculator.mk? (-100) 0 5 1 demoCurve 10 =
      .error "Face value must be positive" :=
  ⟨by norm_num,
    (mk?_spec (-100) 0 5 1 demoCurve 10).2.1 (by norm_num)⟩

/-- C9: `YieldCurve` construction fails iff the two vectors differ in length;
in particular it accepts unsorted, duplicated or negative maturities, and on
success stores the vectors unchanged. -/
theorem mkYieldCurve_spec (ms rs : List ℚ) :
    ((∃ c, mkYieldCurve ms rs = .ok c) ↔ ms.length = rs.length) ∧
    (ms.length ≠ rs.length →
      mkYieldCurve ms rs =
        .error "Maturities and rates must have the same size") ∧
    (∀ c, mkYieldCurve ms rs = .ok c → c.maturities = ms ∧ c.rates = rs) := by
  by_cases h : ms.length = rs.length
  · refine ⟨⟨fun _ => h, fun _ => ⟨⟨ms, rs⟩, ?_⟩⟩, fun hne => absurd h hne, ?_⟩
    · unfold mkYieldCurve
      rw [if_neg (not_not_intro h)]
    · intro c hc
      unfold mkYieldCurve at hc
      rw [if_neg (not_not_intro h)] at hc
      injection hc with hc
      cases hc
      exact ⟨rfl, rfl⟩
  · refine ⟨⟨?_, fun hl => absurd hl h⟩, fun _ => ?_, ?_⟩
    · rintro ⟨c, hc⟩
      unfold mkYieldCurve at hc
      rw [if_pos h] at hc
      exact Except.noConfusion hc
    · unfold mkYieldCurve
      rw [if_pos h]
    · intro c hc
      unfold mkYieldCurve at hc
      rw [if_pos h] at hc
      exact Except.noConfusion hc

/-- C9 witness: a curve whose maturities are unsorted, duplicated and
negative is accepted, since only the lengths are checked. -/
theorem mkYieldCurve_spec_witness :
    ([3, 1, 1, -2] : List ℚ).length = ([1/2, 0, 0, 5] : List ℚ).length ∧
    (∃ c, mkYieldCurve [3, 1, 1, -2] [1/2, 0, 0, 5] = .ok c) :=
  ⟨by decide, (mkYieldCurve_spec [3, 1, 1, -2] [1/2, 0, 0, 5]).1.mpr (by decide)⟩

theorem getD_of_getElem?_some (l : List ℚ) (i : ℕ) (q : ℚ)
    (h : l[i]? = some q) : l.getD i 0 = q := by
  rw [List.getD_eq_getD_get?, List.get?_eq_getElem?, h]
  rfl

/-- C10: the `YieldCurve` constructor accepts two empty vectors, yet
`interpolate` on that curve reads the front (or back) of an empty vector
(`interpolate?` returns `none` exactly there); whenever the curve has at
least one point — a precondition construction does not enforce — every vector
read performed by `interpolate` is in bounds (`interpolate?` returns `some`),
and the value read agrees with the total model `interpolate`. -/
theorem interpolate_empty_curve :
    (mkYieldCurve [] [] = .ok ⟨[], []⟩) ∧
    (∀ t : ℚ, (YieldCurve.mk [] []).interpolate? t = none) ∧
    (∀ (c : YieldCurve) (t q : ℚ), c.interpolate? t = some q →
      c.interpolate t = q) ∧
    (∀ c : YieldCurve, c.maturities ≠ [] →
      c.maturities.length = c.rates.length →
      ∀ t : ℚ, (c.interpolate? t).isSome = true) := by
  refine ⟨rfl, fun t => rfl, ?_, ?_⟩
  · intro c t q h
    unfold YieldCurve.interpolate? at h
    unfold YieldCurve.interpolate
    dsimp only at h ⊢
    split at h
    · rw [if_pos (by assumption)]
      exact getD_of_getElem?_some _ _ _ h
    · split at h
      · rw [if_neg (by assumption), if_pos (by assumption)]
        exact getD_of_getElem?_some _ _ _ h
      · rw [if_neg (by assumption), if_neg (by assumption)]
        rcases h0 : c.maturities[lowerBound c.maturities t - 1]? with _ | t0 <;>
          rcases h1 : c.maturities[lowerBound c.maturities t]? with _ | t1 <;>
          rcases h2 : c.rates[lowerBound c.maturities t - 1]? with _ | r0 <;>
          rcases h3 : c.rates[lowerBound c.maturities t]? with _ | r1 <;>
          rw [h0, h1, h2, h3] at h <;> simp at h
        rw [getD_of_getElem?_some _ _ _ h0, getD_of_getElem?_some _ _ _ h1,
          getD_of_getElem?_some _ _ _ h2, getD_of_getElem?_some _ _ _ h3]
        exact h
  · intro c hne hlen t
    have hmlen : 0 < c.maturities.length := List.length_pos.mpr hne
    have hrlen : 0 < c.rates.length := hlen ▸ hmlen
    unfold YieldCurve.interpolate?
    dsimp only
    split
    · rw [List.getElem?_eq_getElem hrlen]
      rfl
    · split
      · rw [List.getElem?_eq_getElem (show c.rates.length - 1 < c.rates.length
          by omega)]
        rfl
      · have h2 : lowerBound c.maturities t < c.maturities.length :=
          lt_of_le_of_ne (lowerBound_le_length _ _) (by assumption)
        have h1 : 0 < lowerBound c.maturities t :=
          Nat.pos_of_ne_zero (by assumption)
        rw [List.getElem?_eq_getElem
            (show lowerBound c.maturities t - 1 < c.maturities.length by omega),
          List.getElem?_eq_getElem h2,
          List.getElem?_eq_getElem
            (show lowerBound c.maturities t - 1 < c.rates.length by omega),
          List.getElem?_eq_getElem
            (show lowerBound c.maturities t < c.rates.length by omega)]
        rfl

/-- C10 witness: on the non-empty demonstration curve every read performed by
`interpolate` at `t = 3/2` is in bounds. -/
theorem interpolate_empty_curve_witness :
    demoCurve.maturities ≠ [] ∧
    demoCurve.maturities.length = demoCurve.rates.length ∧
    (demoCurve.interpolate? (3/2)).isSome = true :=
  ⟨by decide, by decide,
    interpolate_empty_curve.2.2.2 demoCurve (by decide) (by decide) (3/2)⟩
